import Mathlib

/-!
# Verification of the Declarative Visualization Playback Engine

A shallow embedding, in Lean 4, of the core of the VisualAILearning frontend:

* the Interactive Tree Engine (`InteractiveTreeViewer.tsx`): the binary-search-tree
  node store, `insertNode`, and the four traversal algorithms;
* the Playback Controller (`VisualizationViewer.tsx`): step index / play flag /
  speed / zoom state and its handlers;
* the Type-Dispatch Renderer (`VisualizationCanvas.tsx`): which primitives the
  `renderTree` (node-and-edge) and `renderFlowchart` (box-and-arrow) strategies
  actually draw for a given document and step.

Machine numbers of the source (JavaScript `number`) are embedded as `ℚ` where the
code only does field arithmetic, comparisons and min/max; tree values are
embedded as `Int` (the reference use case inserts `parseInt` results).
-/

namespace VisualAILearning

/-! ## Interactive Tree Engine: the node store

`InteractiveTreeViewer.tsx` keeps a `Record<string, TreeNode>` plus a root id,
where each `TreeNode` has `value`, screen coordinates `x`/`y`, optional `left`/
`right` child ids, and an animation `state`.  Since every node is created with a
fresh id and reached from exactly one parent (an owning tree), the store is
embedded directly as an inductive tree whose nodes carry the same payload
(`value`, `x`, `y`, `state`); the opaque generated `id` strings are not
observable through any operation modelled here and are dropped. -/

/-- `NodeState` in `InteractiveTreeViewer.tsx`: `"normal" | "visiting" | "visited"`. -/
inductive NodeStatus where
  | normal
  | visiting
  | visited
deriving DecidableEq, Repr

/-- The node store of the Interactive Tree Engine: a binary tree of
`TreeNode` records (`value`, `x`, `y`, `state`), with `leaf` standing for a
null child reference (and for the empty store / null root pointer). -/
inductive Tree where
  | leaf
  | node (left : Tree) (value : Int) (x : ℚ) (y : ℚ) (status : NodeStatus) (right : Tree)
deriving DecidableEq, Repr

namespace Tree

/-- The descending phase of `insertNode` (the `while (true)` loop, lines 52-92):
walk from the current node with its 1-based `depth`; `value < current.value`
goes left, otherwise right (ties go right); the new node is attached at the
first empty child slot, at `x = current.x ∓ 150 / depth`, `y = current.y + 100`,
with state `"normal"`.  Only ever called on a non-empty tree (the loop starts at
the root, which exists in this branch of the source). -/
def insertGo : Tree → Int → Nat → Tree
  | .leaf, _, _ => .leaf
  | .node l v x y st r, value, depth =>
    if value < v then
      match l with
      | .leaf =>
        .node (.node .leaf value (x - 150 / (depth : ℚ)) (y + 100) .normal .leaf) v x y st r
      | _ => .node (l.insertGo value (depth + 1)) v x y st r
    else
      match r with
      | .leaf =>
        .node l v x y st (.node .leaf value (x + 150 / (depth : ℚ)) (y + 100) .normal .leaf)
      | _ => .node l v x y st (r.insertGo value (depth + 1))

/-- `insertNode(value)` (lines 30-98): with no root, create the root node at
`(500, 100)`; otherwise descend from the root with `depth = 1`. -/
def insertNode (t : Tree) (value : Int) : Tree :=
  match t with
  | .leaf => .node .leaf value 500 100 .normal .leaf
  | t => t.insertGo value 1

/-- A sequence of `insertNode` calls starting from the empty store. -/
def insertAll (vs : List Int) : Tree :=
  vs.foldl insertNode .leaf

/-- `inorderTraversal` (lines 151-166), projected to the published output
sequence: recurse left, visit (append `node.value`), recurse right. -/
def inorder : Tree → List Int
  | .leaf => []
  | .node l v _ _ _ r => l.inorder ++ v :: r.inorder

/-- `preorderTraversal` (lines 168-182): visit, recurse left, recurse right. -/
def preorder : Tree → List Int
  | .leaf => []
  | .node l v _ _ _ r => v :: (l.preorder ++ r.preorder)

/-- `postorderTraversal` (lines 184-199): recurse left, recurse right, visit. -/
def postorder : Tree → List Int
  | .leaf => []
  | .node l v _ _ _ r => l.postorder ++ r.postorder ++ [v]

/-- Number of `node` constructors (the `Object.keys(nodes).length` count). -/
def size : Tree → Nat
  | .leaf => 0
  | .node l _ _ _ _ r => l.size + r.size + 1

/-- `queue.push(node.left)` guarded by `if (node.left)`: a null child is not
enqueued. -/
def pushChild (q : List Tree) (c : Tree) : List Tree :=
  match c with
  | .leaf => q
  | c => q ++ [c]

/-- Total size of all trees in the BFS queue (termination measure). -/
def queueSize (q : List Tree) : Nat :=
  (q.map size).sum

/-- The `while (queue.length > 0)` loop of `levelorderTraversal` (lines
208-226): dequeue, visit, enqueue the present children left then right.  The
`leaf` case is unreachable from `levelorderTraversal` (only present children
are ever enqueued) but keeps the function total. -/
def levelorderAux : List Tree → List Int
  | [] => []
  | .leaf :: rest => levelorderAux rest
  | .node l v _ _ _ r :: rest =>
    v :: levelorderAux (pushChild (pushChild rest l) r)
termination_by q => (queueSize q, q.length)
decreasing_by
  · have h : queueSize (Tree.leaf :: rest) = queueSize rest := by
      simp [queueSize, size]
    rw [h]
    exact Prod.Lex.right _ (by simp only [List.length_cons]; omega)
  · apply Prod.Lex.left
    cases l <;> cases r <;>
      simp [pushChild, queueSize, size, List.map_append, List.sum_append] <;> omega

/-- `levelorderTraversal` (lines 201-229): empty store yields `[]`; otherwise
breadth-first from a queue seeded with the root. -/
def levelorder (t : Tree) : List Int :=
  match t with
  | .leaf => []
  | t => levelorderAux [t]

/-- A value is stored somewhere in the subtree (reachability of a value). -/
def Mem (x : Int) : Tree → Prop
  | .leaf => False
  | .node l v _ _ _ r => x = v ∨ l.Mem x ∨ r.Mem x

/-- The structural invariant claimed for the node store: at every reachable
node, every value reachable through `left` is strictly below the node's value
and every value reachable through `right` is greater or equal (ties go right). -/
def isBST : Tree → Prop
  | .leaf => True
  | .node l v _ _ _ r =>
    (∀ x : Int, l.Mem x → x < v) ∧ (∀ x : Int, r.Mem x → v ≤ x) ∧ l.isBST ∧ r.isBST

/-- `resetNodeStates` (lines 134-140) sets every stored node's `state` to
`"normal"`; a completed traversal leaves every node `"visited"`.  Both are
instances of setting all statuses. -/
def setAll (st : NodeStatus) : Tree → Tree
  | .leaf => .leaf
  | .node l v x y _ r => .node (l.setAll st) v x y st (r.setAll st)

/-- `true` exactly on the empty store (a null `rootId`). -/
def isLeafB : Tree → Bool
  | .leaf => true
  | _ => false

end Tree

/-! ## Interactive Tree Engine: the `performTraversal` entry point

`performTraversal` (lines 231-257) is the only way a traversal starts.  It is
embedded big-step: the visible component state before the call versus after the
call (and, when a traversal actually runs, after it has completed — the engine
has no mid-traversal cancellation, so the completed outcome is the next stable
state).  The state carries exactly the React state touched by the function:
the node store (with per-node statuses), `traversalOrder`, `selectedTraversal`
and the `isTraversing` reentrancy flag. -/

/-- The `switch (type)` dispatch (lines 240-253), projected to the output
sequence each traversal publishes; an unrecognized type matches no case, so
the sequence stays empty after the reset. -/
def runTraversal (ty : String) (t : Tree) : List Int :=
  if ty == "inorder" then t.inorder
  else if ty == "preorder" then t.preorder
  else if ty == "postorder" then t.postorder
  else if ty == "levelorder" then t.levelorder
  else []

/-- Whether `switch (type)` has a matching case. -/
def knownTraversal (ty : String) : Bool :=
  ty == "inorder" || ty == "preorder" || ty == "postorder" || ty == "levelorder"

/-- The React state of `InteractiveTreeViewer` read and written by
`performTraversal`. -/
structure ViewerState where
  tree : Tree
  traversalOrder : List Int
  selectedTraversal : String
  isTraversing : Bool
deriving DecidableEq, Repr

/-- `performTraversal(type)` (lines 231-257), big-step.  The reentrancy guard
`if (isTraversing || !rootId) return;` makes a request during a running
traversal (or on an empty tree) return immediately, touching nothing.
Otherwise the run sets the flag, records the selection, clears the output,
resets all node states, runs the selected traversal to completion (every node
ends `"visited"`, the output sequence is the traversal's value order) and
finally clears the flag. -/
def performTraversal (s : ViewerState) (ty : String) : ViewerState :=
  if s.isTraversing || s.tree.isLeafB then s
  else
    { tree := if knownTraversal ty then s.tree.setAll .visited else s.tree.setAll .normal
      traversalOrder := runTraversal ty s.tree
      selectedTraversal := ty
      isTraversing := false }

/-! ## Playback Controller (`VisualizationViewer.tsx`)

The controller state is `currentStep`, `isPlaying`, `speed`, `zoom`; the total
step count comes from the surrounding document (`data.steps.length`).  The
step index is embedded as `Int` because the source compares it against
`totalSteps - 1`, which is `-1` in JavaScript when there are no steps. -/

/-- The React state of `VisualizationViewer` touched by the transport and zoom
handlers. -/
structure PlayerState where
  currentStep : Int
  isPlaying : Bool
  speed : ℚ
  zoom : ℚ
deriving DecidableEq, Repr

/-- `handleStepForward` (lines 77-82): only when `currentStep < totalSteps - 1`
does it advance one step and stop autoplay; otherwise the whole call is a
no-op. -/
def handleStepForward (total : Nat) (s : PlayerState) : PlayerState :=
  if s.currentStep < (total : Int) - 1 then
    { s with currentStep := s.currentStep + 1, isPlaying := false }
  else s

/-- `handleStepBackward` (lines 84-89): only when `currentStep > 0` does it go
back one step and stop autoplay; otherwise the whole call is a no-op. -/
def handleStepBackward (s : PlayerState) : PlayerState :=
  if 0 < s.currentStep then
    { s with currentStep := s.currentStep - 1, isPlaying := false }
  else s

/-- `handleZoomIn` (lines 96-98): `Math.min(prev + 0.2, 3)`. -/
def handleZoomIn (z : ℚ) : ℚ :=
  min (z + 0.2) 3

/-- `handleZoomOut` (lines 100-102): `Math.max(prev - 0.2, 0.5)`. -/
def handleZoomOut (z : ℚ) : ℚ :=
  max (z - 0.2) 0.5

/-- A zoom button press. -/
inductive ZoomOp where
  | zin
  | zout
deriving DecidableEq, Repr

def applyZoom : ZoomOp → ℚ → ℚ
  | .zin, z => handleZoomIn z
  | .zout, z => handleZoomOut z

/-- A finite sequence of zoom-in / zoom-out presses applied in order. -/
def applyZoomSeq (ops : List ZoomOp) (z : ℚ) : ℚ :=
  ops.foldl (fun z op => applyZoom op z) z

/-- The wait the autoplay effect schedules before advancing (line 56):
`(currentStepData.duration / speed) * 1000` milliseconds, with no lower
bound and no special-casing of non-positive durations. -/
def autoplayWaitMs (duration : ℚ) (speed : ℚ) : ℚ :=
  duration / speed * 1000

/-- What the autoplay timer does when it fires (lines 58-64): advance one step
if not at the last step, else stop playing. -/
def autoplayTick (total : Nat) (s : PlayerState) : PlayerState :=
  if s.currentStep < (total : Int) - 1 then
    { s with currentStep := s.currentStep + 1 }
  else
    { s with isPlaying := false }

/-! ## Visualization Document Model (`types/visualization.ts`)

Only the fields the renderer and controller read are carried.  Optional
numeric properties are `Option ℚ` (`none` = absent in the JSON document);
JavaScript truthiness of a number (`x` is falsy when `0`, `NaN` or absent) is
embedded by `truthyNum`, and the `||`-defaulting idiom by `jsOr`. -/

structure ComponentProperties where
  x : Option ℚ
  y : Option ℚ
  width : Option ℚ
  height : Option ℚ
  color : Option String
  label : Option String
deriving DecidableEq, Repr

structure VisualComponent where
  id : String
  type : String
  properties : ComponentProperties
  content : Option String
  connections : List String
deriving DecidableEq, Repr

structure AnimationStep where
  step_number : Nat
  description : String
  duration : ℚ
  highlight : List String
deriving DecidableEq, Repr

structure VisualizationData where
  visualization_type : String
  components : List VisualComponent
  steps : List AnimationStep
deriving DecidableEq, Repr

/-- JavaScript truthiness of an optional numeric property: absent and `0` are
falsy (`NaN`, also falsy, has no counterpart in `ℚ`). -/
def truthyNum : Option ℚ → Bool
  | none => false
  | some v => v != 0

/-- The `a || d` defaulting idiom on an optional numeric property: the default
is used when the property is absent or `0`. -/
def jsOr (v : Option ℚ) (d : ℚ) : ℚ :=
  match v with
  | none => d
  | some q => if q != 0 then q else d

/-! ## Type-Dispatch Renderer (`VisualizationCanvas.tsx`)

The two drawing strategies are embedded as functions from a document and step
index to the list of primitives they put on the canvas; a component or
connection the source code skips simply produces no primitive.  The dispatch
(lines 53-70) sends `tree` and `graph` to `renderTree` and `flowchart` /
`process` / `animation` / `timeline` / anything else to `renderFlowchart`
(via literal delegation in the source). -/

/-- `data.steps[currentStep]?.highlight || []` (line 98 / line 197). -/
def highlightAt (data : VisualizationData) (step : Nat) : List String :=
  match data.steps.get? step with
  | some s => s.highlight
  | none => []

/-- `data.components.find((c) => c.id === targetId)` (line 113 / line 206). -/
def findComponent (data : VisualizationData) (cid : String) : Option VisualComponent :=
  data.components.find? (fun c => c.id == cid)

/-- The guard of `renderTree` (lines 104 and 137): a component is drawable in
the node-and-edge strategy only when its `type` is exactly `"node"` and both
coordinates are truthy. -/
def nodeDrawable (c : VisualComponent) : Bool :=
  c.type == "node" && truthyNum c.properties.x && truthyNum c.properties.y

/-- The nodes `renderTree` draws (lines 134-176): every component passing the
`nodeDrawable` guard, in document order. -/
def treeDrawnNodes (data : VisualizationData) : List VisualComponent :=
  data.components.filter nodeDrawable

/-- The target-resolution guard of the edge loop (line 115): the connection is
drawn only if `target` exists and `target.type === "node" &&
target.properties.x && target.properties.y` — the same expression as the
`nodeDrawable` guard. -/
def resolveDrawableTarget (data : VisualizationData) (tid : String) :
    Option VisualComponent :=
  (findComponent data tid).filter nodeDrawable

/-- The edges `renderTree` draws (lines 101-132): for every component passing
the guard, each connection whose target id resolves to a component that is a
`"node"` with truthy coordinates; the edge is highlighted when either endpoint
id is in the current step's highlight set. -/
def treeDrawnEdges (data : VisualizationData) (step : Nat) :
    List (VisualComponent × VisualComponent × Bool) :=
  (data.components.filter nodeDrawable).flatMap fun c =>
    c.connections.filterMap fun targetId =>
      (resolveDrawableTarget data targetId).map fun t =>
        (c, t, ((highlightAt data step).contains c.id
                 || (highlightAt data step).contains targetId))

/-- One box `renderFlowchart` paints. -/
structure BoxPrim where
  x : ℚ
  y : ℚ
  width : ℚ
  height : ℚ
  highlighted : Bool
  boxId : String
deriving DecidableEq, Repr

/-- One arrow (`drawArrow`) `renderFlowchart` paints. -/
structure ArrowPrim where
  fromX : ℚ
  fromY : ℚ
  toX : ℚ
  toY : ℚ
  highlighted : Bool
  sourceId : String
  targetId : String
deriving DecidableEq, Repr

/-- The boxes `renderFlowchart` draws (lines 219-270): every component,
unconditionally, at `x || 0`, `y || 0`, sized `width || 120` by `height || 60`. -/
def flowchartBoxes (data : VisualizationData) (step : Nat) : List BoxPrim :=
  data.components.map fun c =>
    { x := jsOr c.properties.x 0
      y := jsOr c.properties.y 0
      width := jsOr c.properties.width 120
      height := jsOr c.properties.height 60
      highlighted := (highlightAt data step).contains c.id
      boxId := c.id }

/-- The arrows `renderFlowchart` draws (lines 199-216): for every component,
each connection whose target id resolves, from `(x||0, y||0)` of the source to
`(x||0, y||0)` of the target; `drawArrow` is passed
`highlightedIds.has(component.id)` — the highlight flag of the SOURCE
component only. -/
def flowchartArrows (data : VisualizationData) (step : Nat) : List ArrowPrim :=
  data.components.flatMap fun c =>
    c.connections.filterMap fun targetId =>
      (findComponent data targetId).map fun t =>
        { fromX := jsOr c.properties.x 0
          fromY := jsOr c.properties.y 0
          toX := jsOr t.properties.x 0
          toY := jsOr t.properties.y 0
          highlighted := (highlightAt data step).contains c.id
          sourceId := c.id
          targetId := targetId }

/-- The stroke/fill color `drawArrow` uses (lines 305-306): the distinct
highlight color `#a855f7` when the passed flag is set, else gray `#6b7280`. -/
def arrowColor (highlighted : Bool) : String :=
  if highlighted then "#a855f7" else "#6b7280"

/-! ## Concrete sample documents and states used in witnesses and counterexamples -/

/-- Empty property bag: every optional field absent. -/
def noProps : ComponentProperties :=
  { x := none, y := none, width := none, height := none, color := none, label := none }

/-- Properties with concrete coordinates and nothing else. -/
def propsAt (px py : ℚ) : ComponentProperties :=
  { noProps with x := some px, y := some py }

/-- A flowchart document whose component `"a"` has no `x`/`y` at all and is
connected to component `"b"`, which sits at `(100, 100)`. -/
def docMissingCoords : VisualizationData :=
  { visualization_type := "flowchart"
    components :=
      [ { id := "a", type := "shape", properties := noProps, content := none,
          connections := ["b"] },
        { id := "b", type := "shape", properties := propsAt 100 100, content := none,
          connections := [] } ]
    steps := [] }

/-- A flowchart document with an arrow from `"a"` at `(10, 10)` to `"b"` at
`(200, 200)`, where the single step highlights only the TARGET `"b"`. -/
def docTargetHighlighted : VisualizationData :=
  { visualization_type := "flowchart"
    components :=
      [ { id := "a", type := "shape", properties := propsAt 10 10, content := none,
          connections := ["b"] },
        { id := "b", type := "shape", properties := propsAt 200 200, content := none,
          connections := [] } ]
    steps := [ { step_number := 1, description := "d", duration := 1, highlight := ["b"] } ] }

/-- A component of type `"node"` whose `x` coordinate is the number `0` —
present and numeric, but falsy in JavaScript. -/
def zeroXComponent : VisualComponent :=
  { id := "z", type := "node", properties := { noProps with x := some 0, y := some 50 },
    content := none, connections := [] }

/-- A tree document containing `zeroXComponent` and a well-placed node
connected to it. -/
def docZeroCoord : VisualizationData :=
  { visualization_type := "tree"
    components :=
      [ { id := "n1", type := "node", properties := propsAt 50 60, content := none,
          connections := ["z"] },
        zeroXComponent ]
    steps := [] }

/-- A tree-viewer state in the middle of a running traversal
(`isTraversing = true`, one node currently `"visiting"`). -/
def busyViewerState : ViewerState :=
  { tree := .node .leaf 5 500 100 .visiting .leaf
    traversalOrder := [5]
    selectedTraversal := "inorder"
    isTraversing := true }

end VisualAILearning

/-! # Theorems

Helper lemmas first, then one theorem per claim (with its witness or
counterexample where required). -/

namespace VisualAILearning

namespace Tree

theorem Mem_insertGo : ∀ (t : Tree) (value : Int) (depth : Nat) (x : Int), t ≠ .leaf →
    ((t.insertGo value depth).Mem x ↔ x = value ∨ t.Mem x)
  | .leaf, _, _, _, h => absurd rfl h
  | .node l v cx cy st r, value, depth, x, _ => by
    by_cases hv : value < v
    · cases l with
      | leaf =>
        simp only [insertGo, if_pos hv, Mem]
        tauto
      | node ll lv lx ly lst lr =>
        have ih := Mem_insertGo (.node ll lv lx ly lst lr) value (depth + 1) x
          (by intro hc; cases hc)
        simp only [insertGo, if_pos hv, Mem] at ih ⊢
        tauto
    · cases r with
      | leaf =>
        simp only [insertGo, if_neg hv, Mem]
        tauto
      | node rl rv rx ry rst rr =>
        have ih := Mem_insertGo (.node rl rv rx ry rst rr) value (depth + 1) x
          (by intro hc; cases hc)
        simp only [insertGo, if_neg hv, Mem] at ih ⊢
        tauto

theorem Mem_insertNode (t : Tree) (value x : Int) :
    (t.insertNode value).Mem x ↔ x = value ∨ t.Mem x := by
  cases t with
  | leaf => simp [insertNode, Mem]
  | node l v cx cy st r =>
    exact Mem_insertGo (.node l v cx cy st r) value 1 x (by intro hc; cases hc)

theorem isBST_insertGo : ∀ (t : Tree) (value : Int) (depth : Nat), t ≠ .leaf → t.isBST →
    (t.insertGo value depth).isBST
  | .leaf, _, _, h, _ => absurd rfl h
  | .node l v cx cy st r, value, depth, _, hb => by
    obtain ⟨hl, hr, hbl, hbr⟩ := hb
    by_cases hv : value < v
    · cases l with
      | leaf =>
        simp only [insertGo, if_pos hv, isBST, Mem]
        refine ⟨?_, hr, ?_, hbr⟩
        · intro x hx
          rcases hx with rfl | hx | hx
          · exact hv
          · exact hx.elim
          · exact hx.elim
        · exact ⟨fun x hx => hx.elim, fun x hx => hx.elim, trivial, trivial⟩
      | node ll lv lx ly lst lr =>
        have hne : (Tree.node ll lv lx ly lst lr) ≠ .leaf := by intro hc; cases hc
        have key : (Tree.node (.node ll lv lx ly lst lr) v cx cy st r).insertGo value depth =
            .node ((Tree.node ll lv lx ly lst lr).insertGo value (depth + 1)) v cx cy st r := by
          simp only [insertGo, if_pos hv]
        rw [key]
        simp only [isBST]
        refine ⟨?_, hr, isBST_insertGo (.node ll lv lx ly lst lr) value (depth + 1) hne hbl, hbr⟩
        intro x hx
        rw [Mem_insertGo (.node ll lv lx ly lst lr) value (depth + 1) x hne] at hx
        rcases hx with rfl | hx
        · exact hv
        · exact hl x hx
    · cases r with
      | leaf =>
        simp only [insertGo, if_neg hv, isBST, Mem]
        refine ⟨hl, ?_, hbl, ?_⟩
        · intro x hx
          rcases hx with rfl | hx | hx
          · omega
          · exact hx.elim
          · exact hx.elim
        · exact ⟨fun x hx => hx.elim, fun x hx => hx.elim, trivial, trivial⟩
      | node rl rv rx ry rst rr =>
        have hne : (Tree.node rl rv rx ry rst rr) ≠ .leaf := by intro hc; cases hc
        have key : (Tree.node l v cx cy st (.node rl rv rx ry rst rr)).insertGo value depth =
            .node l v cx cy st ((Tree.node rl rv rx ry rst rr).insertGo value (depth + 1)) := by
          simp only [insertGo, if_neg hv]
        rw [key]
        simp only [isBST]
        refine ⟨hl, ?_, hbl, isBST_insertGo (.node rl rv rx ry rst rr) value (depth + 1) hne hbr⟩
        intro x hx
        rw [Mem_insertGo (.node rl rv rx ry rst rr) value (depth + 1) x hne] at hx
        rcases hx with rfl | hx
        · omega
        · exact hr x hx

theorem isBST_insertNode (t : Tree) (value : Int) (h : t.isBST) :
    (t.insertNode value).isBST := by
  cases t with
  | leaf =>
    refine ⟨fun x hx => hx.elim, fun x hx => hx.elim, trivial, trivial⟩
  | node l v cx cy st r =>
    exact isBST_insertGo (.node l v cx cy st r) value 1 (by intro hc; cases hc) h

theorem isBST_foldl_insertNode : ∀ (vs : List Int) (t : Tree), t.isBST →
    (vs.foldl insertNode t).isBST
  | [], _, h => h
  | v :: vs, t, h => isBST_foldl_insertNode vs (t.insertNode v) (isBST_insertNode t v h)

theorem mem_inorder (x : Int) : ∀ t : Tree, x ∈ t.inorder ↔ t.Mem x := by
  intro t
  induction t with
  | leaf => simp [inorder, Mem]
  | node l v cx cy st r ihl ihr =>
    simp only [inorder, List.mem_append, List.mem_cons, Mem, ihl, ihr]
    tauto

theorem sorted_inorder : ∀ t : Tree, t.isBST → t.inorder.Sorted (· ≤ ·) := by
  intro t
  induction t with
  | leaf => intro _; exact List.sorted_nil
  | node l v cx cy st r ihl ihr =>
    intro h
    obtain ⟨hl, hr, hbl, hbr⟩ := h
    simp only [inorder]
    rw [List.Sorted, List.pairwise_append]
    refine ⟨ihl hbl, ?_, ?_⟩
    · rw [List.pairwise_cons]
      exact ⟨fun b hb => hr b ((mem_inorder b r).1 hb), ihr hbr⟩
    · intro a ha b hb
      have hav : a < v := hl a ((mem_inorder a l).1 ha)
      rcases List.mem_cons.mp hb with rfl | hb2
      · omega
      · have hvb : v ≤ b := hr b ((mem_inorder b r).1 hb2)
        omega


end Tree

/-- A component failing the `nodeDrawable` guard produces no node primitive in
the node-and-edge strategy and is never an endpoint of a drawn edge. -/
theorem not_drawn_of_not_nodeDrawable (data : VisualizationData) (step : Nat)
    (c : VisualComponent) (h : nodeDrawable c = false) :
    c ∉ treeDrawnNodes data ∧
      ∀ e ∈ treeDrawnEdges data step, e.1 ≠ c ∧ e.2.1 ≠ c := by
  refine ⟨?_, ?_⟩
  · intro hc
    rw [treeDrawnNodes, List.mem_filter, h] at hc
    exact Bool.false_ne_true hc.2
  · intro e he
    rw [treeDrawnEdges, List.mem_flatMap] at he
    obtain ⟨a, ha, he2⟩ := he
    rw [List.mem_filter] at ha
    rw [List.mem_filterMap] at he2
    obtain ⟨tid, _, hres⟩ := he2
    rw [Option.map_eq_some'] at hres
    obtain ⟨t, htres, hte⟩ := hres
    rw [resolveDrawableTarget, Option.filter_eq_some] at htres
    constructor
    · intro hac
      have hda : nodeDrawable c = true := by rw [← hac, ← hte]; exact ha.2
      rw [h] at hda
      exact Bool.false_ne_true hda
    · intro htc
      have hdt : nodeDrawable c = true := by rw [← htc, ← hte]; exact htres.2
      rw [h] at hdt
      exact Bool.false_ne_true hdt

/-- C4 counterexample: in the box-and-arrow (`renderFlowchart`) strategy the
claim fails — component `"a"` of `docMissingCoords` has no numeric `x`/`y` at
all, yet it IS drawn (as a box at the `|| 0` default origin, sized by the
defaults) and its connection to `"b"` IS drawn as an arrow starting at the
origin. -/
theorem flowchart_draws_component_without_coords :
    (docMissingCoords.components.head?.map fun c => c.properties.x) = some none ∧
    flowchartBoxes docMissingCoords 0 =
      [ { x := 0, y := 0, width := 120, height := 60, highlighted := false, boxId := "a" },
        { x := 100, y := 100, width := 120, height := 60, highlighted := false, boxId := "b" } ] ∧
    flowchartArrows docMissingCoords 0 =
      [ { fromX := 0, fromY := 0, toX := 100, toY := 100, highlighted := false,
          sourceId := "a", targetId := "b" } ] := by
  decide

/-- C4 (amended): in the node-and-edge (`renderTree`/`renderGraph`) strategy —
but not in the box-and-arrow one, which substitutes the origin via `|| 0` — a
component whose properties lack a numeric `x` or `y` coordinate is not drawn
that frame (for any document, step and zoom: zoom only scales the canvas
context and never affects which primitives are emitted), and no connection
line touching it is drawn; the renderer skips it without throwing. -/
theorem tree_strategy_skips_missing_coords (data : VisualizationData) (step : Nat)
    (c : VisualComponent) (h : c.properties.x = none ∨ c.properties.y = none) :
    c ∉ treeDrawnNodes data ∧
      ∀ e ∈ treeDrawnEdges data step, e.1 ≠ c ∧ e.2.1 ≠ c := by
  apply not_drawn_of_not_nodeDrawable
  rcases h with h | h <;> simp [nodeDrawable, truthyNum, h]

/-- Witness for C4 (amended), at the coordinate-less component of
`docMissingCoords`. -/
theorem tree_strategy_skips_missing_coords_witness :
    ({ id := "a", type := "shape", properties := noProps, content := none,
       connections := ["b"] } : VisualComponent) ∉ treeDrawnNodes docMissingCoords ∧
      ∀ e ∈ treeDrawnEdges docMissingCoords 0,
        e.1 ≠ ({ id := "a", type := "shape", properties := noProps, content := none,
                 connections := ["b"] } : VisualComponent) ∧
        e.2.1 ≠ ({ id := "a", type := "shape", properties := noProps, content := none,
                   connections := ["b"] } : VisualComponent) :=
  tree_strategy_skips_missing_coords docMissingCoords 0 _ (Or.inl rfl)

/-- C6 counterexample: in `docTargetHighlighted` the single step highlights the
arrow's TARGET `"b"` (an endpoint of the connection `"a" → "b"`), yet
`renderFlowchart` draws the arrow with `highlighted = false` — in the gray
`#6b7280`, not the distinct highlight color `#a855f7` — because `drawArrow` is
passed only the source's highlight membership. -/
theorem flowchart_arrow_ignores_target_highlight :
    (highlightAt docTargetHighlighted 0).contains "b" = true ∧
    flowchartArrows docTargetHighlighted 0 =
      [ { fromX := 10, fromY := 10, toX := 200, toY := 200, highlighted := false,
          sourceId := "a", targetId := "b" } ] ∧
    arrowColor false = "#6b7280" ∧
    arrowColor false ≠ "#a855f7" := by
  decide

/-- C6 (amended): in the box-and-arrow strategy every drawn arrow carries the
highlight flag of its SOURCE component exactly — it is colored distinctly when
the source endpoint is in the current step's highlight set, and the target
endpoint's highlight state has no effect on it. -/
theorem flowchart_arrow_highlight_is_source_only (data : VisualizationData)
    (step : Nat) (a : ArrowPrim) (ha : a ∈ flowchartArrows data step) :
    a.highlighted = (highlightAt data step).contains a.sourceId := by
  rw [flowchartArrows, List.mem_flatMap] at ha
  obtain ⟨c, _, ha2⟩ := ha
  rw [List.mem_filterMap] at ha2
  obtain ⟨tid, _, hres⟩ := ha2
  rw [Option.map_eq_some'] at hres
  obtain ⟨t, _, hte⟩ := hres
  rw [← hte]

/-- Witness for C6 (amended), at the arrow of `docTargetHighlighted`. -/
theorem flowchart_arrow_highlight_is_source_only_witness :
    ({ fromX := 10, fromY := 10, toX := 200, toY := 200, highlighted := false,
       sourceId := "a", targetId := "b" } : ArrowPrim).highlighted =
      (highlightAt docTargetHighlighted 0).contains "a" :=
  flowchart_arrow_highlight_is_source_only docTargetHighlighted 0 _ (by decide)

/-- C10: in the node-and-edge strategy, coordinate validity is decided by
JavaScript truthiness, so a component whose `x` or `y` IS present but equals
the numeric coordinate `0` is treated as not drawable and skipped, no
connection line with it as either endpoint is drawn, and only components whose
`type` tag is exactly `"node"` are considered at all. -/
theorem tree_strategy_truthiness_guard (data : VisualizationData) (step : Nat)
    (c : VisualComponent)
    (h : c.properties.x = some 0 ∨ c.properties.y = some 0 ∨ c.type ≠ "node") :
    c ∉ treeDrawnNodes data ∧
      ∀ e ∈ treeDrawnEdges data step, e.1 ≠ c ∧ e.2.1 ≠ c := by
  apply not_drawn_of_not_nodeDrawable
  rcases h with h | h | h
  · simp [nodeDrawable, truthyNum, h]
  · simp [nodeDrawable, truthyNum, h]
  · simp [nodeDrawable, h]

/-- Witness for C10, at the `x = 0` node of `docZeroCoord` (which another node
connects to). -/
theorem tree_strategy_truthiness_guard_witness :
    zeroXComponent ∉ treeDrawnNodes docZeroCoord ∧
      ∀ e ∈ treeDrawnEdges docZeroCoord 0,
        e.1 ≠ zeroXComponent ∧ e.2.1 ≠ zeroXComponent :=
  tree_strategy_truthiness_guard docZeroCoord 0 zeroXComponent (Or.inl rfl)

/-- One `handleStepForward` call never moves the index above `total - 1`. -/
theorem stepForward_preserves_upper (total : Nat) (s : PlayerState)
    (h : s.currentStep ≤ (total : Int) - 1) :
    (handleStepForward total s).currentStep ≤ (total : Int) - 1 := by
  rw [handleStepForward]
  split
  · simp
    omega
  · exact h

/-- One `handleStepBackward` call never moves the index below `0`. -/
theorem stepBackward_preserves_lower (s : PlayerState) (h : 0 ≤ s.currentStep) :
    0 ≤ (handleStepBackward s).currentStep := by
  rw [handleStepBackward]
  split
  · simp
    omega
  · exact h

theorem stepForward_iterate_le (total : Nat) : ∀ (n : Nat) (s : PlayerState),
    s.currentStep ≤ (total : Int) - 1 →
    ((handleStepForward total)^[n] s).currentStep ≤ (total : Int) - 1
  | 0, s, h => by simpa using h
  | n + 1, s, h => by
    rw [Function.iterate_succ_apply]
    exact stepForward_iterate_le total n _ (stepForward_preserves_upper total s h)

theorem stepBackward_iterate_nonneg : ∀ (n : Nat) (s : PlayerState),
    0 ≤ s.currentStep → 0 ≤ (handleStepBackward^[n] s).currentStep
  | 0, s, h => by simpa using h
  | n + 1, s, h => by
    rw [Function.iterate_succ_apply]
    exact stepBackward_iterate_nonneg n _ (stepBackward_preserves_lower s h)

/-- C5 counterexample: the claim's "every such call always forces the
controller into the idle state" fails at the clamp boundary.  With a one-step
document (`total = 1`) and the controller playing at step 0 (the state
`handlePlayPause` produces there), `handleStepForward` is a complete no-op:
`isPlaying` stays `true`. -/
theorem step_forward_boundary_keeps_playing :
    handleStepForward 1 { currentStep := 0, isPlaying := true, speed := 1, zoom := 1 } =
      { currentStep := 0, isPlaying := true, speed := 1, zoom := 1 } ∧
    (handleStepForward 1
      { currentStep := 0, isPlaying := true, speed := 1, zoom := 1 }).isPlaying = true := by
  decide

/-- C5 (amended): `handleStepForward` / `handleStepBackward` adjust the step
index by ±1 clamped to `[0, total-1]` — iterating `handleStepForward` any
number of times never takes an in-range index beyond `total - 1`, and
symmetrically `handleStepBackward` never goes below `0` — and each call forces
the idle (not playing) state whenever it actually moves the index; at the
clamp boundary the call is instead a complete no-op that leaves the whole
state, including the playing flag, unchanged. -/
theorem step_clamping (total : Nat) (s : PlayerState) :
    (0 ≤ s.currentStep → s.currentStep ≤ (total : Int) - 1 →
      (handleStepForward total s).currentStep = min (s.currentStep + 1) ((total : Int) - 1) ∧
      (handleStepBackward s).currentStep = max (s.currentStep - 1) 0) ∧
    (∀ n : Nat, s.currentStep ≤ (total : Int) - 1 →
      ((handleStepForward total)^[n] s).currentStep ≤ (total : Int) - 1) ∧
    (∀ n : Nat, 0 ≤ s.currentStep → 0 ≤ (handleStepBackward^[n] s).currentStep) ∧
    ((handleStepForward total s).currentStep ≠ s.currentStep →
      (handleStepForward total s).isPlaying = false) ∧
    ((handleStepBackward s).currentStep ≠ s.currentStep →
      (handleStepBackward s).isPlaying = false) ∧
    (¬ s.currentStep < (total : Int) - 1 → handleStepForward total s = s) ∧
    (¬ 0 < s.currentStep → handleStepBackward s = s) := by
  refine ⟨?_, fun n => stepForward_iterate_le total n s,
    fun n h => stepBackward_iterate_nonneg n s h, ?_, ?_, ?_, ?_⟩
  · intro h0 h1
    constructor
    · rw [handleStepForward]
      split
      · simp
        omega
      · omega
    · rw [handleStepBackward]
      split
      · simp
        omega
      · omega
  · intro hne
    by_cases hc : s.currentStep < (total : Int) - 1
    · rw [handleStepForward, if_pos hc]
    · rw [handleStepForward, if_neg hc] at hne
      exact absurd rfl hne
  · intro hne
    by_cases hc : 0 < s.currentStep
    · rw [handleStepBackward, if_pos hc]
    · rw [handleStepBackward, if_neg hc] at hne
      exact absurd rfl hne
  · intro h
    rw [handleStepForward, if_neg h]
  · intro h
    rw [handleStepBackward, if_neg h]

/-- Witness for C5 (amended): the moving parts at `total = 3` from step 1
while playing, the iterated parts for 5 presses, and the boundary no-op parts
at `total = 1`, step 0, playing. -/
theorem step_clamping_witness :
    ((handleStepForward 3 ⟨1, true, 1, 1⟩).currentStep = min ((1 : Int) + 1) ((3 : Int) - 1) ∧
      (handleStepBackward ⟨1, true, 1, 1⟩).currentStep = max ((1 : Int) - 1) 0) ∧
    ((handleStepForward 3)^[5] ⟨1, true, 1, 1⟩).currentStep ≤ (3 : Int) - 1 ∧
    (0 : Int) ≤ (handleStepBackward^[5] ⟨1, true, 1, 1⟩).currentStep ∧
    (handleStepForward 3 ⟨1, true, 1, 1⟩).isPlaying = false ∧
    (handleStepBackward ⟨1, true, 1, 1⟩).isPlaying = false ∧
    handleStepForward 1 ⟨0, true, 1, 1⟩ = ⟨0, true, 1, 1⟩ ∧
    handleStepBackward ⟨0, true, 1, 1⟩ = ⟨0, true, 1, 1⟩ :=
  ⟨(step_clamping 3 ⟨1, true, 1, 1⟩).1 (by decide) (by decide),
    (step_clamping 3 ⟨1, true, 1, 1⟩).2.1 5 (by decide),
    (step_clamping 3 ⟨1, true, 1, 1⟩).2.2.1 5 (by decide),
    (step_clamping 3 ⟨1, true, 1, 1⟩).2.2.2.1 (by decide),
    (step_clamping 3 ⟨1, true, 1, 1⟩).2.2.2.2.1 (by decide),
    (step_clamping 1 ⟨0, true, 1, 1⟩).2.2.2.2.2.1 (by decide),
    (step_clamping 1 ⟨0, true, 1, 1⟩).2.2.2.2.2.2 (by decide)⟩

/-- A single zoom press keeps the factor inside `[0.5, 3]`. -/
theorem applyZoom_mem_bounds (op : ZoomOp) (z : ℚ) (h1 : 0.5 ≤ z) (h2 : z ≤ 3) :
    0.5 ≤ applyZoom op z ∧ applyZoom op z ≤ 3 := by
  cases op with
  | zin =>
    refine ⟨le_min (by linarith) (by norm_num), min_le_right _ _⟩
  | zout =>
    refine ⟨le_max_right _ _, max_le (by linarith) (by norm_num)⟩

theorem applyZoomSeq_mem_bounds : ∀ (ops : List ZoomOp) (z : ℚ), 0.5 ≤ z → z ≤ 3 →
    0.5 ≤ applyZoomSeq ops z ∧ applyZoomSeq ops z ≤ 3
  | [], _, h1, h2 => ⟨h1, h2⟩
  | op :: ops, z, h1, h2 => by
    have hstep := applyZoom_mem_bounds op z h1 h2
    have htail := applyZoomSeq_mem_bounds ops (applyZoom op z) hstep.1 hstep.2
    simpa [applyZoomSeq, List.foldl_cons] using htail

/-- C9 counterexample: "each operation changes the zoom factor by 0.2" fails
once a clamp binds.  After ten zoom-ins from the initial zoom `1` the factor
is exactly `3`; the eleventh zoom-in leaves it unchanged — it changes the
factor by `0`, and `0 ≠ 0.2`. -/
theorem zoom_step_not_always_point_two :
    applyZoomSeq (List.replicate 10 .zin) 1 = 3 ∧
    applyZoomSeq (List.replicate 11 .zin) 1 -
      applyZoomSeq (List.replicate 10 .zin) 1 = 0 ∧
    (0 : ℚ) ≠ 0.2 := by
  norm_num [applyZoomSeq, applyZoom, handleZoomIn, handleZoomOut, List.replicate,
    min_def]

/-- C9 (amended): every finite sequence of zoom-in / zoom-out presses starting
from the initial zoom `1` keeps the factor within `[0.5, 3.0]` inclusive; each
press moves the factor by `0.2` whenever the clamp does not bind, and by at
most `0.2` (possibly `0`) when it does. -/
theorem zoom_bounds (ops : List ZoomOp) :
    (0.5 ≤ applyZoomSeq ops 1 ∧ applyZoomSeq ops 1 ≤ 3) ∧
    (∀ (op : ZoomOp) (z : ℚ), 0.5 ≤ z → z ≤ 3 → |applyZoom op z - z| ≤ 0.2) ∧
    (∀ z : ℚ, z + 0.2 ≤ 3 → applyZoom .zin z = z + 0.2) ∧
    (∀ z : ℚ, 0.5 ≤ z - 0.2 → applyZoom .zout z = z - 0.2) := by
  refine ⟨applyZoomSeq_mem_bounds ops 1 (by norm_num) (by norm_num), ?_, ?_, ?_⟩
  · intro op z h1 h2
    rw [abs_le]
    cases op with
    | zin =>
      rcases le_or_lt (z + 0.2) 3 with hc | hc
      · rw [applyZoom, handleZoomIn, min_eq_left hc]
        constructor <;> linarith
      · rw [applyZoom, handleZoomIn, min_eq_right (le_of_lt hc)]
        constructor <;> linarith
    | zout =>
      rcases le_or_lt (0.5 : ℚ) (z - 0.2) with hc | hc
      · rw [applyZoom, handleZoomOut, max_eq_left hc]
        constructor <;> linarith
      · rw [applyZoom, handleZoomOut, max_eq_right (le_of_lt hc)]
        constructor <;> linarith
  · intro z hc
    rw [applyZoom, handleZoomIn, min_eq_left hc]
  · intro z hc
    rw [applyZoom, handleZoomOut, max_eq_left hc]

/-- Witness for C9 (amended): the invariant after a concrete press sequence,
and the per-press facts at `z = 1`. -/
theorem zoom_bounds_witness :
    (0.5 ≤ applyZoomSeq [ZoomOp.zout, ZoomOp.zout, ZoomOp.zout, ZoomOp.zin] 1 ∧
      applyZoomSeq [ZoomOp.zout, ZoomOp.zout, ZoomOp.zout, ZoomOp.zin] 1 ≤ 3) ∧
    |applyZoom ZoomOp.zin 1 - 1| ≤ 0.2 ∧
    applyZoom ZoomOp.zin 1 = 1 + 0.2 ∧
    applyZoom ZoomOp.zout 1 = 1 - 0.2 :=
  ⟨(zoom_bounds [ZoomOp.zout, ZoomOp.zout, ZoomOp.zout, ZoomOp.zin]).1,
    (zoom_bounds []).2.1 .zin 1 (by norm_num) (by norm_num),
    (zoom_bounds []).2.2.1 1 (by norm_num),
    (zoom_bounds []).2.2.2 1 (by norm_num)⟩

/-- C3: the autoplay effect of `VisualizationViewer` does NOT treat a missing
or non-positive `duration` as a ≈1 second minimum — it schedules exactly
`(duration / speed) * 1000` ms with no lower bound, so a step with
`duration = 0` at speed `1` is scheduled with a `0` ms wait and a negative
duration with a negative wait, contradicting the claimed safe-minimum
handling. -/
theorem autoplay_wait_has_no_minimum :
    autoplayWaitMs 0 1 = 0 ∧
    autoplayWaitMs (-2) 1 = -2000 ∧
    ¬ (1000 : ℚ) ≤ autoplayWaitMs 0 1 := by
  refine ⟨by norm_num [autoplayWaitMs], by norm_num [autoplayWaitMs], ?_⟩
  norm_num [autoplayWaitMs]

/-- C8: the reentrancy guard of `performTraversal` — a traverse request issued
while `isTraversing` is set returns immediately as a silent no-op: the whole
viewer state (node store with its per-node visual states, recorded output
sequence, selected traversal, running flag) is returned unchanged, for every
traversal kind and every tree. -/
theorem traverse_reentrant_noop (s : ViewerState) (ty : String)
    (h : s.isTraversing = true) : performTraversal s ty = s := by
  rw [performTraversal, h]
  simp

/-- Witness for C8, at a mid-traversal state. -/
theorem traverse_reentrant_noop_witness :
    busyViewerState.isTraversing = true ∧
    performTraversal busyViewerState "preorder" = busyViewerState :=
  ⟨rfl, traverse_reentrant_noop busyViewerState "preorder" rfl⟩

/-- C1: for every sequence of `insertNode` calls starting from the empty
store, the in-order traversal yields the stored values in non-decreasing
sorted order; concretely, inserting `[45, 25, 65, 15, 35, 55, 75]` and running
`inorder` yields `[15, 25, 35, 45, 55, 65, 75]`. -/
theorem insert_inorder_sorted :
    (∀ vs : List Int, List.Sorted (· ≤ ·) (Tree.insertAll vs).inorder) ∧
    (Tree.insertAll [45, 25, 65, 15, 35, 55, 75]).inorder =
      [15, 25, 35, 45, 55, 65, 75] :=
  ⟨fun vs => Tree.sorted_inorder _ (Tree.isBST_foldl_insertNode vs .leaf trivial),
    by decide⟩

/-- C2: after any sequence of insert operations the node store is a valid
binary search tree — at every reachable node, every value reachable through
the left child is strictly less than the node's value and every value
reachable through the right child is greater than or equal (ties go right). -/
theorem insertAll_isBST (vs : List Int) : (Tree.insertAll vs).isBST :=
  Tree.isBST_foldl_insertNode vs .leaf trivial

/-- C7: on the tree built by inserting `[50, 30, 70, 20, 40]` in order, the
pre-order traversal outputs `[50, 30, 20, 40, 70]`, the post-order traversal
outputs `[20, 40, 30, 70, 50]`, and the level-order traversal outputs
`[50, 30, 70, 20, 40]`. -/
theorem traversal_shapes :
    (Tree.insertAll [50, 30, 70, 20, 40]).preorder = [50, 30, 20, 40, 70] ∧
    (Tree.insertAll [50, 30, 70, 20, 40]).postorder = [20, 40, 30, 70, 50] ∧
    (Tree.insertAll [50, 30, 70, 20, 40]).levelorder = [50, 30, 70, 20, 40] := by
  refine ⟨by decide, by decide, ?_⟩
  simp [Tree.insertAll, Tree.insertNode, Tree.insertGo, Tree.levelorder,
    Tree.levelorderAux, Tree.pushChild]

end VisualAILearning
